import Mathlib

/-!
Verification development for the ephemeral file-hosting subsystem of the
DAYN repository: the token-based `FileRegistry` (src/app/web/file_registry.py),
its HTTP delivery surface (src/app/web/server.py), and the progress tracking
hook and reporting loop (src/app/downloader/base/progress.py).

The Python code is embedded shallowly:
- `datetime` timestamps become `Nat` (seconds); `datetime.utcnow() > expires_at`
  becomes `entry.expires_at < now`.
- The `dict[str, FileEntry]` entry map becomes an association list with
  Python-dict semantics (`lookupTok`, `setTok`, `popTok`).
- The filesystem becomes a map from paths to optional byte contents; a
  deletion attempt (`aiofiles.os.remove`) may fail with `OSError`, which the
  code catches and logs, so deletion takes a per-path success oracle `fsOk`.
- Each operation additionally returns the list of tokens on whose behalf a
  file-deletion attempt was made (the exists-guard passed), so that
  "at most one deletion per entry" is a statement about operation traces.
-/

/-- File contents: a list of byte values. -/
abbrev Bytes := List Nat

/-- Embeds the `FileEntry` dataclass of src/app/web/file_registry.py. -/
structure FileEntry where
  token : String
  file_path : String
  filename : String
  file_size : Nat
  content_type : String
  created_at : Nat
  expires_at : Nat
  audio_token : Option String := none
  consumed : Bool := false
deriving DecidableEq

/-- The registry's entry map, mirroring the Python `dict[str, FileEntry]`. -/
abbrev EntryMap := List (String × FileEntry)

/-- `dict.get(token)`: first binding of the key, if any. -/
def lookupTok : EntryMap → String → Option FileEntry
  | [], _ => none
  | (k, v) :: rest, t => if k = t then some v else lookupTok rest t

/-- `dict[token] = entry`: overwrite the binding in place, or append it. -/
def setTok : EntryMap → String → FileEntry → EntryMap
  | [], t, e => [(t, e)]
  | (k, v) :: rest, t, e => if k = t then (t, e) :: rest else (k, v) :: setTok rest t e

/-- `dict.pop(token, None)`: drop the binding of the key. -/
def popTok : EntryMap → String → EntryMap
  | [], _ => []
  | (k, v) :: rest, t => if k = t then rest else (k, v) :: popTok rest t

/-- A Python dict never holds two bindings of one key. -/
def keysNodup (m : EntryMap) : Prop := (m.map Prod.fst).Nodup

/-- Registry state: the entry map plus the local filesystem visible to it. -/
structure RegState where
  entries : EntryMap
  disk : String → Option Bytes

/-- `if await aiofiles.os.path.exists(p): await aiofiles.os.remove(p)`.
`fsOk p` tells whether removing `p` would succeed or raise `OSError`
(the caller catches and logs the error).  Returns the new filesystem and
whether a removal was attempted (the exists-guard passed). -/
def deleteIfExists (fsOk : String → Bool) (disk : String → Option Bytes) (p : String) :
    (String → Option Bytes) × Bool :=
  match disk p with
  | some _ => (if fsOk p then (fun q => if q = p then none else disk q) else disk, true)
  | none => (disk, false)

namespace FileRegistry

/-- `FileRegistry.register`: store a fresh entry and return its token.
The `uuid.uuid4().hex` token is a parameter (modelling its nondeterminism);
`created_at = now`, `expires_at = now + expires_seconds`; the file's
existence is not verified. -/
def register (s : RegState) (token : String) (now : Nat)
    (file_path filename : String) (file_size : Nat) (content_type : String)
    (expires_seconds : Nat) (audio_token : Option String) : String × RegState :=
  let entry : FileEntry :=
    { token := token, file_path := file_path, filename := filename,
      file_size := file_size, content_type := content_type,
      created_at := now, expires_at := now + expires_seconds,
      audio_token := audio_token, consumed := false }
  (token, { s with entries := setTok s.entries token entry })

/-- `FileRegistry._remove`: pop the entry from the map and, if it was not
yet consumed, delete its file.  Returns the new state and the deletion
attempts made (tagged with the entry's token). -/
def remove (s : RegState) (token : String) (entry : FileEntry) (fsOk : String → Bool) :
    RegState × List String :=
  let entries' := popTok s.entries token
  if entry.consumed then ({ entries := entries', disk := s.disk }, [])
  else
    let d := deleteIfExists fsOk s.disk entry.file_path
    ({ entries := entries', disk := d.1 }, if d.2 then [token] else [])

/-- `FileRegistry.get`: return the entry unless absent or expired; on lazy
expiry discovery, remove-and-delete first.  Consumed entries are returned
as-is. -/
def get (s : RegState) (now : Nat) (token : String) (fsOk : String → Bool) :
    Option FileEntry × RegState × List String :=
  match lookupTok s.entries token with
  | none => (none, s, [])
  | some entry =>
    if entry.expires_at < now then
      let r := remove s token entry fsOk
      (none, r.1, r.2)
    else (some entry, s, [])

/-- `FileRegistry.consume`: no-op on an absent or already-consumed token;
otherwise mark the entry consumed (it stays in the map) and attempt to
delete its file. -/
def consume (s : RegState) (token : String) (fsOk : String → Bool) :
    RegState × List String :=
  match lookupTok s.entries token with
  | none => (s, [])
  | some entry =>
    if entry.consumed then (s, [])
    else
      let entry' := { entry with consumed := true }
      let d := deleteIfExists fsOk s.disk entry.file_path
      ({ entries := setTok s.entries token entry', disk := d.1 },
        if d.2 then [token] else [])

/-- The snapshot `[(token, entry) for ... if now > entry.expires_at]`
taken under the lock by `cleanup_expired`. -/
def expiredSnapshot (m : EntryMap) (now : Nat) : EntryMap :=
  m.filter (fun p => p.2.expires_at < now)

/-- The `for token, entry in expired: await self._remove(...)` loop. -/
def removeAll (fsOk : String → Bool) : RegState → EntryMap → RegState × Nat × List String
  | s, [] => (s, 0, [])
  | s, (t, e) :: rest =>
    let r := remove s t e fsOk
    let rec' := removeAll fsOk r.1 rest
    (rec'.1, rec'.2.1 + 1, r.2 ++ rec'.2.2)

/-- `FileRegistry.cleanup_expired`: remove every expired entry and its file;
return the number removed. -/
def cleanup_expired (s : RegState) (now : Nat) (fsOk : String → Bool) :
    Nat × RegState × List String :=
  let r := removeAll fsOk s (expiredSnapshot s.entries now)
  (r.2.1, r.1, r.2.2)

end FileRegistry

/-- One registry operation, for reasoning about traces. -/
inductive Op where
  | register (now : Nat) (tok fp fn : String) (sz : Nat) (ct : String)
      (ttl : Nat) (atk : Option String)
  | get (now : Nat) (tok : String) (fsOk : String → Bool)
  | consume (tok : String) (fsOk : String → Bool)
  | cleanup (now : Nat) (fsOk : String → Bool)

def Op.isRegister : Op → Bool
  | .register .. => true
  | _ => false

/-- All file-deletion attempts made by this operation would succeed. -/
def Op.fsTotal : Op → Prop
  | .register .. => True
  | .get _ _ fsOk => ∀ p, fsOk p = true
  | .consume _ fsOk => ∀ p, fsOk p = true
  | .cleanup _ fsOk => ∀ p, fsOk p = true

/-- Run one operation: resulting state and deletion-attempt log. -/
def runOp (s : RegState) : Op → RegState × List String
  | .register now tok fp fn sz ct ttl atk =>
    ((FileRegistry.register s tok now fp fn sz ct ttl atk).2, [])
  | .get now tok fsOk => (FileRegistry.get s now tok fsOk).2
  | .consume tok fsOk => FileRegistry.consume s tok fsOk
  | .cleanup now fsOk => (FileRegistry.cleanup_expired s now fsOk).2

/-- Run a sequence of operations, concatenating the deletion logs. -/
def runOps : RegState → List Op → RegState × List String
  | s, [] => (s, [])
  | s, op :: ops =>
    let r := runOp s op
    let r' := runOps r.1 ops
    (r'.1, r.2 ++ r'.2)

/-! ## The HTTP delivery surface (src/app/web/server.py) -/

/-- `'video/mp4' if entry.content_type == 'video' else 'audio/mpeg'`. -/
def mimeOf (ct : String) : String := if ct = "video" then "video/mp4" else "audio/mpeg"

/-- The headers set by `_handle_file_download` on its `StreamResponse`. -/
structure DlHeaders where
  disposition_filename : String
  content_type_hdr : String
  content_length : Nat
deriving DecidableEq

/-- Outcome of `GET /files/{token}`.  `streamed hdrs body complete` records
the headers, the bytes actually written, and whether the stream finished
(on interruption the `except` branch swallows the error and skips consume). -/
inductive FileDlRes where
  | expired404
  | consumed410
  | gone404
  | streamed (headers : DlHeaders) (body : Bytes) (complete : Bool)
deriving DecidableEq

/-- `_handle_file_download`.  `interrupt = none` models a stream that is
written to completion; `interrupt = some n` models a client disconnect or
write failure after `n` bytes, which raises inside the `try` block so that
`consume` is never reached. -/
def handle_file_download (s : RegState) (now : Nat) (token : String)
    (fsOk : String → Bool) (interrupt : Option Nat) :
    FileDlRes × RegState × List String :=
  match FileRegistry.get s now token fsOk with
  | (none, s', log) => (.expired404, s', log)
  | (some entry, s', log) =>
    if entry.consumed then (.consumed410, s', log)
    else
      match s'.disk entry.file_path with
      | none => (.gone404, s', log)
      | some contents =>
        let headers : DlHeaders :=
          { disposition_filename := entry.filename,
            content_type_hdr := mimeOf entry.content_type,
            content_length := entry.file_size }
        match interrupt with
        | none =>
          let c := FileRegistry.consume s' token fsOk
          (.streamed headers contents true, c.1, log ++ c.2)
        | some n =>
          (.streamed headers (contents.take n) false, s', log)

/-- Outcome of `GET /preview/{token}`: 404 for an absent/consumed entry or a
missing file, otherwise the file's bytes (`web.FileResponse`). -/
inductive PreviewRes where
  | notAvailable404
  | fileGone404
  | ok (body : Bytes)
deriving DecidableEq

/-- `_handle_preview`: resolves the token, never consumes. -/
def handle_preview (s : RegState) (now : Nat) (token : String) (fsOk : String → Bool) :
    PreviewRes × RegState × List String :=
  match FileRegistry.get s now token fsOk with
  | (none, s', log) => (.notAvailable404, s', log)
  | (some entry, s', log) =>
    if entry.consumed then (.notAvailable404, s', log)
    else
      match s'.disk entry.file_path with
      | none => (.fileGone404, s', log)
      | some contents => (.ok contents, s', log)

/-- The observable content of the HTML produced by `_render_page`: which
player is embedded, the main download button, and the optional audio
sibling button (audio token and filename). -/
structure RenderedPage where
  is_video : Bool
  filename : String
  preview_src_token : String
  dl_href_token : String
  audio_btn : Option (String × String)
deriving DecidableEq

/-- `_render_page`: the audio button appears iff the entry is a video, an
audio sibling entry was resolved, and that sibling is not consumed. -/
def render_page (entry : FileEntry) (token : String) (audio_entry : Option FileEntry) :
    RenderedPage :=
  let is_video := entry.content_type = "video"
  { is_video := is_video,
    filename := entry.filename,
    preview_src_token := token,
    dl_href_token := token,
    audio_btn :=
      match audio_entry with
      | some a => if is_video ∧ a.consumed = false then some (a.token, a.filename) else none
      | none => none }

/-- Outcome of `GET /download/{token}`. -/
inductive PageRes where
  | expired404
  | consumed410
  | ok (page : RenderedPage)
deriving DecidableEq

/-- `_handle_download_page`.  `if entry.audio_token:` is Python truthiness,
so an empty-string audio token is not resolved. -/
def handle_download_page (s : RegState) (now : Nat) (token : String)
    (fsOk : String → Bool) : PageRes × RegState × List String :=
  match FileRegistry.get s now token fsOk with
  | (none, s', log) => (.expired404, s', log)
  | (some entry, s', log) =>
    if entry.consumed then (.consumed410, s', log)
    else
      match entry.audio_token with
      | some atk =>
        if atk = "" then (.ok (render_page entry token none), s', log)
        else
          match FileRegistry.get s' now atk fsOk with
          | (audio_entry, s'', log') =>
            (.ok (render_page entry token audio_entry), s'', log ++ log')
      | none => (.ok (render_page entry token none), s', log)

/-! ## Progress tracking (src/app/downloader/base/progress.py) -/

namespace Timeouts

/-- `Timeouts.PROGRESS_CHANGE_THRESHOLD` from src/app/config/constants.py. -/
def PROGRESS_CHANGE_THRESHOLD : Rat := 2

end Timeouts

/-- The `ProgressTracker` shared state `{'percent': 0, 'downloading': True}`.
Percent values are rationals (exact for the integral and short decimal
percent strings yt-dlp produces). -/
structure PTState where
  percent : Rat
  downloading : Bool
deriving DecidableEq

/-- The `d['status']` values the hook distinguishes. -/
inductive YdlStatus where
  | downloading
  | finished
  | other
deriving DecidableEq

/-- A yt-dlp progress event as seen by the hook: its status and the optional
`'_percent_str'` value. -/
structure YdlEvent where
  status : YdlStatus
  percent_str : Option String
deriving DecidableEq

/-- Python `str.strip('%')`: remove leading and trailing percent signs. -/
def stripPercentChars (s : String) : String :=
  let cs := (s.toList.dropWhile (· = '%')).reverse.dropWhile (· = '%')
  String.mk cs.reverse

/-- Models Python `float(...)` on the plain decimal strings relevant here:
optional surrounding spaces, an optional sign, digits with an optional
decimal point.  Anything else (in particular a non-numeric string) raises
`ValueError`, modelled as `none`. -/
def pyFloat? (s : String) : Option Rat :=
  let cs := (s.toList.dropWhile (· = ' ')).reverse.dropWhile (· = ' ')
  let cs := cs.reverse
  let sign : Bool × List Char :=
    match cs with
    | '-' :: rest => (true, rest)
    | '+' :: rest => (false, rest)
    | _ => (false, cs)
  let intPart := sign.2.takeWhile Char.isDigit
  let rest := sign.2.dropWhile Char.isDigit
  let mag : Option Rat :=
    match rest with
    | [] =>
      if intPart = [] then none
      else some ((intPart.foldl (fun n c => n * 10 + (c.toNat - 48)) 0 : Nat) : Rat)
    | '.' :: frac =>
      if frac.all Char.isDigit ∧ (intPart ≠ [] ∨ frac ≠ []) then
        some (((intPart.foldl (fun n c => n * 10 + (c.toNat - 48)) 0 : Nat) : Rat) +
          ((frac.foldl (fun n c => n * 10 + (c.toNat - 48)) 0 : Nat) : Rat) / ((10 : Rat) ^ frac.length))
      else none
    | _ => none
  mag.map (fun m => if sign.1 then -m else m)

namespace ProgressTracker

/-- `ProgressTracker.hook`: on a `'downloading'` event, parse
`d.get('_percent_str', '0%').strip('%')` as a float and store it (a
`ValueError` is swallowed, leaving the state untouched); on `'finished'`,
clear the downloading flag; otherwise do nothing. -/
def hook (st : PTState) (d : YdlEvent) : PTState :=
  match d.status with
  | .downloading =>
    match pyFloat? (stripPercentChars (d.percent_str.getD "0%")) with
    | some v => { st with percent := v }
    | none => st
  | .finished => { st with downloading := false }
  | .other => st

/-- Python `abs` on a rational value. -/
def ratAbs (x : Rat) : Rat := if x < 0 then -x else x

/-- One pass of `_update_loop`'s body over the percent values the loop
observes, starting from `last_percent`.  The callback is invoked exactly
when `abs(current_percent - last_percent) >= threshold`; `cbOk v = false`
models the callback raising, in which case `last_percent` is not updated
(the `except` branch only logs).  Returns the callback invocations. -/
def update_loop_go (threshold : Rat) (cbOk : Rat → Bool) : Rat → List Rat → List Rat
  | _, [] => []
  | last, v :: vs =>
    if threshold ≤ ratAbs (v - last) then
      v :: update_loop_go threshold cbOk (if cbOk v then v else last) vs
    else
      update_loop_go threshold cbOk last vs

/-- `_update_loop`: `last_percent` starts at `-1`. -/
def update_loop_reports (threshold : Rat) (cbOk : Rat → Bool) (samples : List Rat) :
    List Rat :=
  update_loop_go threshold cbOk (-1) samples

end ProgressTracker

/-- The percent source `0, 1, 2, ..., 100` of the throttling scenario,
as integers. -/
def percentsInt : List Int := (List.range 101).map (fun n : Nat => (n : Int))

/-- The percent source `0, 1, 2, ..., 100` of the throttling scenario. -/
def percents0to100 : List Rat := percentsInt.map (fun n : Int => (n : Rat))

/-! ## Lemmas about the entry map -/

theorem lookupTok_setTok (m : EntryMap) (t : String) (e : FileEntry) (q : String) :
    lookupTok (setTok m t e) q = if t = q then some e else lookupTok m q := by
  induction m with
  | nil => by_cases htq : t = q <;> simp [setTok, lookupTok, htq]
  | cons kv rest ih =>
    obtain ⟨k, v⟩ := kv
    by_cases hkt : k = t
    · subst hkt
      by_cases hkq : k = q <;> simp [setTok, lookupTok, hkq]
    · by_cases hkq : k = q
      · subst hkq
        have htq : ¬ t = k := fun hh => hkt hh.symm
        simp [setTok, lookupTok, hkt, htq]
      · simp [setTok, lookupTok, hkt, hkq, ih]

theorem lookupTok_popTok_ne (m : EntryMap) (t q : String) (h : t ≠ q) :
    lookupTok (popTok m t) q = lookupTok m q := by
  induction m with
  | nil => simp [popTok]
  | cons kv rest ih =>
    obtain ⟨k, v⟩ := kv
    by_cases hkt : k = t
    · subst hkt
      have hkq : ¬ k = q := fun hh => h (hh ▸ rfl)
      simp [popTok, lookupTok, hkq]
    · by_cases hkq : k = q
      · subst hkq
        simp [popTok, lookupTok, hkt, Ne.symm h]
      · simp [popTok, lookupTok, hkt, hkq, ih]

theorem lookupTok_eq_none (m : EntryMap) (t : String) (h : t ∉ m.map Prod.fst) :
    lookupTok m t = none := by
  induction m with
  | nil => simp [lookupTok]
  | cons kv rest ih =>
    obtain ⟨k, v⟩ := kv
    simp only [List.map_cons, List.mem_cons, not_or] at h
    have hkt : ¬ k = t := fun hh => h.1 hh.symm
    simp [lookupTok, hkt, ih h.2]

theorem mem_popTok (m : EntryMap) (t : String) (x : String × FileEntry)
    (h : x ∈ popTok m t) : x ∈ m := by
  induction m with
  | nil => simp [popTok] at h
  | cons kv rest ih =>
    obtain ⟨k, v⟩ := kv
    by_cases hkt : k = t
    · subst hkt
      simp only [popTok, if_pos rfl] at h
      exact List.mem_cons_of_mem _ h
    · simp only [popTok, if_neg hkt] at h
      rcases List.mem_cons.mp h with h | h
      · exact h ▸ List.mem_cons_self _ _
      · exact List.mem_cons_of_mem _ (ih h)

theorem mem_setTok (m : EntryMap) (t : String) (e : FileEntry) (x : String × FileEntry)
    (h : x ∈ setTok m t e) : x = (t, e) ∨ x ∈ m := by
  induction m with
  | nil => simpa [setTok] using h
  | cons kv rest ih =>
    obtain ⟨k, v⟩ := kv
    by_cases hkt : k = t
    · subst hkt
      simp only [setTok, if_pos rfl] at h
      rcases List.mem_cons.mp h with h | h
      · exact Or.inl h
      · exact Or.inr (List.mem_cons_of_mem _ h)
    · simp only [setTok, if_neg hkt] at h
      rcases List.mem_cons.mp h with h | h
      · exact Or.inr (h ▸ List.mem_cons_self _ _)
      · rcases ih h with h | h
        · exact Or.inl h
        · exact Or.inr (List.mem_cons_of_mem _ h)

theorem keysNodup_popTok (m : EntryMap) (t : String) (h : keysNodup m) :
    keysNodup (popTok m t) := by
  induction m with
  | nil => simpa [popTok] using h
  | cons kv rest ih =>
    obtain ⟨k, v⟩ := kv
    simp only [keysNodup, List.map_cons, List.nodup_cons] at h
    by_cases hkt : k = t
    · subst hkt
      simp only [popTok, if_pos rfl]
      exact h.2
    · simp only [popTok, if_neg hkt, keysNodup, List.map_cons, List.nodup_cons]
      refine ⟨fun hc => h.1 ?_, ih h.2⟩
      rcases List.mem_map.mp hc with ⟨x, hx, hx2⟩
      exact List.mem_map.mpr ⟨x, mem_popTok _ _ _ hx, hx2⟩

theorem keysNodup_setTok (m : EntryMap) (t : String) (e : FileEntry) (h : keysNodup m) :
    keysNodup (setTok m t e) := by
  induction m with
  | nil => simp [setTok, keysNodup]
  | cons kv rest ih =>
    obtain ⟨k, v⟩ := kv
    simp only [keysNodup, List.map_cons, List.nodup_cons] at h
    by_cases hkt : k = t
    · subst hkt
      have hset : setTok ((k, v) :: rest) k e = (k, e) :: rest := by simp [setTok]
      rw [hset]
      simp only [keysNodup, List.map_cons, List.nodup_cons]
      exact ⟨h.1, h.2⟩
    · simp only [setTok, if_neg hkt, keysNodup, List.map_cons, List.nodup_cons]
      refine ⟨fun hc => ?_, ih h.2⟩
      rcases List.mem_map.mp hc with ⟨x, hx, hx2⟩
      rcases mem_setTok rest t e x hx with rfl | hx2m
      · exact hkt hx2.symm
      · exact h.1 (List.mem_map.mpr ⟨x, hx2m, hx2⟩)

theorem lookupTok_popTok_self (m : EntryMap) (t : String) (h : keysNodup m) :
    lookupTok (popTok m t) t = none := by
  induction m with
  | nil => simp [popTok, lookupTok]
  | cons kv rest ih =>
    obtain ⟨k, v⟩ := kv
    simp only [keysNodup, List.map_cons, List.nodup_cons] at h
    by_cases hkt : k = t
    · subst hkt
      simp only [popTok, if_pos rfl]
      exact lookupTok_eq_none rest k h.1
    · simp only [popTok, if_neg hkt, lookupTok, if_neg hkt]
      exact ih h.2

theorem lookupTok_of_mem (m : EntryMap) (t : String) (e : FileEntry)
    (h : keysNodup m) (hm : (t, e) ∈ m) : lookupTok m t = some e := by
  induction m with
  | nil => simp at hm
  | cons kv rest ih =>
    obtain ⟨k, v⟩ := kv
    simp only [keysNodup, List.map_cons, List.nodup_cons] at h
    rcases List.mem_cons.mp hm with heq | hm2
    · injection heq.symm with h1 h2
      subst h1
      subst h2
      simp [lookupTok]
    · have hkt : k ≠ t := by
        intro hk
        subst hk
        exact h.1 (List.mem_map.mpr ⟨(k, e), hm2, rfl⟩)
      simp only [lookupTok, if_neg hkt]
      exact ih h.2 hm2

theorem mem_of_lookupTok (m : EntryMap) (t : String) (e : FileEntry)
    (h : lookupTok m t = some e) : (t, e) ∈ m := by
  induction m with
  | nil => simp [lookupTok] at h
  | cons kv rest ih =>
    obtain ⟨k, v⟩ := kv
    by_cases hkt : k = t
    · subst hkt
      simp [lookupTok] at h
      subst h
      exact List.mem_cons_self _ _
    · simp only [lookupTok, if_neg hkt] at h
      exact List.mem_cons_of_mem _ (ih h)

/-! ## Lemmas about the registry operations -/

namespace FileRegistry

theorem get_live (s : RegState) (now : Nat) (tok : String) (fsOk : String → Bool)
    (e : FileEntry) (hent : lookupTok s.entries tok = some e)
    (hexp : ¬ e.expires_at < now) :
    get s now tok fsOk = (some e, s, []) := by
  simp [get, hent, hexp]

theorem get_absent (s : RegState) (now : Nat) (tok : String) (fsOk : String → Bool)
    (h : lookupTok s.entries tok = none) :
    get s now tok fsOk = (none, s, []) := by
  simp [get, h]

theorem consume_live (s : RegState) (tok : String) (fsOk : String → Bool)
    (e : FileEntry) (hent : lookupTok s.entries tok = some e)
    (hcons : e.consumed = false) :
    consume s tok fsOk =
      ({ entries := setTok s.entries tok { e with consumed := true },
         disk := (deleteIfExists fsOk s.disk e.file_path).1 },
       if (deleteIfExists fsOk s.disk e.file_path).2 then [tok] else []) := by
  simp [consume, hent, hcons]

theorem consume_noop_absent (s : RegState) (tok : String) (fsOk : String → Bool)
    (h : lookupTok s.entries tok = none) :
    consume s tok fsOk = (s, []) := by
  simp [consume, h]

theorem consume_noop_consumed (s : RegState) (tok : String) (fsOk : String → Bool)
    (e : FileEntry) (hent : lookupTok s.entries tok = some e)
    (hcons : e.consumed = true) :
    consume s tok fsOk = (s, []) := by
  simp [consume, hent, hcons]

theorem lookupTok_after_consume (s : RegState) (tok : String) (fsOk : String → Bool)
    (e : FileEntry) (hent : lookupTok s.entries tok = some e)
    (hcons : e.consumed = false) :
    lookupTok (consume s tok fsOk).1.entries tok = some { e with consumed := true } := by
  rw [consume_live s tok fsOk e hent hcons]
  simp [lookupTok_setTok]

end FileRegistry

/-! ## C8: registry round-trip -/

/-- C8: for every filePath, filename, fileSize, contentType and positive
ttlSeconds, `register` followed by `get` with the returned token before
ttlSeconds have elapsed returns an entry whose filename, fileSize and
contentType equal the registered arguments, whose consumed flag is false,
and whose expiresAt minus createdAt equals exactly ttlSeconds. -/
theorem register_get_roundtrip (s : RegState) (tok : String) (now now2 : Nat)
    (fp fn : String) (sz : Nat) (ct : String) (ttl : Nat) (atk : Option String)
    (fsOk : String → Bool) (httl : 0 < ttl) (hnow2 : now2 ≤ now + ttl) :
    ∃ e : FileEntry,
      (FileRegistry.get (FileRegistry.register s tok now fp fn sz ct ttl atk).2
          now2 tok fsOk).1 = some e ∧
      e.filename = fn ∧ e.file_size = sz ∧ e.content_type = ct ∧
      e.file_path = fp ∧ e.consumed = false ∧
      e.expires_at - e.created_at = ttl := by
  refine ⟨⟨tok, fp, fn, sz, ct, now, now + ttl, atk, false⟩, ?_, rfl, rfl, rfl, rfl, rfl,
    show now + ttl - now = ttl by omega⟩
  have hl := lookupTok_setTok s.entries tok
    ⟨tok, fp, fn, sz, ct, now, now + ttl, atk, false⟩ tok
  rw [if_pos rfl] at hl
  simp only [FileRegistry.register, FileRegistry.get, hl]
  rw [if_neg (by omega)]

/-- Witness for C8 at a concrete registration. -/
theorem register_get_roundtrip_witness :
    ∃ e : FileEntry,
      (FileRegistry.get
          (FileRegistry.register ⟨[], fun _ => none⟩ "t" 0 "p" "a.mp4" 1234 "video" 1800 none).2
          1000 "t" (fun _ => true)).1 = some e ∧
      e.filename = "a.mp4" ∧ e.file_size = 1234 ∧ e.content_type = "video" ∧
      e.file_path = "p" ∧ e.consumed = false ∧
      e.expires_at - e.created_at = 1800 :=
  register_get_roundtrip ⟨[], fun _ => none⟩ "t" 0 1000 "p" "a.mp4" 1234 "video" 1800 none
    (fun _ => true) (by norm_num) (by norm_num)

theorem deleteIfExists_self (fsOk : String → Bool) (disk : String → Option Bytes)
    (p : String) (h : fsOk p = true) : (deleteIfExists fsOk disk p).1 p = none := by
  unfold deleteIfExists
  cases hd : disk p <;> simp [hd, h]

theorem deleteIfExists_shrink (fsOk : String → Bool) (disk : String → Option Bytes)
    (p q : String) (h : disk q = none) : (deleteIfExists fsOk disk p).1 q = none := by
  unfold deleteIfExists
  cases hd : disk p
  · simpa using h
  · by_cases hf : fsOk p
    · simp only [hf, if_true]
      by_cases hq : q = p <;> simp [hq, h]
    · simpa [hf] using h

/-! ## Witness fixtures: one concrete registry state -/

/-- A concrete filesystem: the file at path `p` holds three bytes. -/
def sampleDisk : String → Option Bytes := fun q => if q = "p" then some [1, 2, 3] else none

/-- A concrete video entry, live until time 100. -/
def sampleEntry : FileEntry := ⟨"t", "p", "a.mp4", 3, "video", 0, 100, none, false⟩

/-- A concrete registry state holding `sampleEntry` and its backing file. -/
def sampleState : RegState := ⟨[("t", sampleEntry)], sampleDisk⟩

/-! ## C4: expiry is absolute and evaluated lazily by get -/

/-- C4: whenever the current time is strictly past an entry's expiresAt,
`get` returns absent — no cleanup sweep needed — and during that same call
the entry is removed from the map; if the entry was not already consumed
its backing file is deleted (shown here for a deletion the filesystem
accepts: after the call the file no longer exists). -/
theorem get_expired_absent_removes (s : RegState) (now : Nat) (tok : String)
    (fsOk : String → Bool) (e : FileEntry)
    (hnodup : keysNodup s.entries)
    (hent : lookupTok s.entries tok = some e)
    (hexp : e.expires_at < now) :
    (FileRegistry.get s now tok fsOk).1 = none ∧
    lookupTok (FileRegistry.get s now tok fsOk).2.1.entries tok = none ∧
    (e.consumed = false → fsOk e.file_path = true →
      (FileRegistry.get s now tok fsOk).2.1.disk e.file_path = none) := by
  have hg : FileRegistry.get s now tok fsOk =
      (none, (FileRegistry.remove s tok e fsOk).1, (FileRegistry.remove s tok e fsOk).2) := by
    simp [FileRegistry.get, hent, hexp]
  refine ⟨by rw [hg], ?_, ?_⟩
  · rw [hg]
    cases hc : e.consumed <;>
      simp [FileRegistry.remove, hc, lookupTok_popTok_self s.entries tok hnodup]
  · intro hc hfs
    rw [hg]
    simp only [FileRegistry.remove, hc, Bool.false_eq_true, if_false]
    exact deleteIfExists_self fsOk s.disk e.file_path hfs

/-- Witness for C4: at time 200 the sample entry (expiresAt 100) is gone and
its file deleted. -/
theorem get_expired_absent_removes_witness :
    (FileRegistry.get sampleState 200 "t" (fun _ => true)).1 = none ∧
    lookupTok (FileRegistry.get sampleState 200 "t" (fun _ => true)).2.1.entries "t" = none ∧
    (FileRegistry.get sampleState 200 "t" (fun _ => true)).2.1.disk "p" = none := by
  have h := get_expired_absent_removes sampleState 200 "t" (fun _ => true) sampleEntry
    (by unfold keysNodup; decide) (by decide) (by decide)
  exact ⟨h.1, h.2.1, h.2.2 (by decide) rfl⟩

/-! ## C3: preview never consumes -/

/-- Sequential `GET /preview/{token}` requests at the given request times. -/
def previewRun (tok : String) (fsOk : String → Bool) :
    RegState → List Nat → List PreviewRes × RegState
  | s, [] => ([], s)
  | s, t :: ts =>
    let r := handle_preview s t tok fsOk
    let r' := previewRun tok fsOk r.2.1 ts
    (r.1 :: r'.1, r'.2)

theorem handle_preview_live (s : RegState) (now : Nat) (tok : String)
    (fsOk : String → Bool) (e : FileEntry) (bytes : Bytes)
    (hent : lookupTok s.entries tok = some e) (hexp : ¬ e.expires_at < now)
    (hcons : e.consumed = false) (hdisk : s.disk e.file_path = some bytes) :
    handle_preview s now tok fsOk = (.ok bytes, s, []) := by
  rw [handle_preview, FileRegistry.get_live s now tok fsOk e hent hexp]
  simp [hcons, hdisk]

/-- C3: for a live unconsumed entry whose backing file exists, any number of
sequential preview requests before expiry all return the backing file's
bytes and leave the registry state entirely unchanged (consume is never
called); preview of an absent or consumed entry is a 404. -/
theorem preview_never_consumes (s : RegState) (tok : String) (fsOk : String → Bool)
    (e : FileEntry) (bytes : Bytes) (times : List Nat)
    (hent : lookupTok s.entries tok = some e)
    (hcons : e.consumed = false)
    (hdisk : s.disk e.file_path = some bytes)
    (hne : times ≠ [])
    (hlive : ∀ t ∈ times, ¬ e.expires_at < t) :
    previewRun tok fsOk s times = (times.map (fun _ => PreviewRes.ok bytes), s) ∧
    (∀ (s2 : RegState) (now2 : Nat) (tok2 : String) (fsOk2 : String → Bool),
      lookupTok s2.entries tok2 = none →
      (handle_preview s2 now2 tok2 fsOk2).1 = .notAvailable404) ∧
    (∀ (s2 : RegState) (now2 : Nat) (tok2 : String) (fsOk2 : String → Bool)
      (e2 : FileEntry), lookupTok s2.entries tok2 = some e2 → e2.consumed = true →
      ¬ e2.expires_at < now2 →
      (handle_preview s2 now2 tok2 fsOk2).1 = .notAvailable404) := by
  refine ⟨?_, ?_, ?_⟩
  · clear hne
    induction times with
    | nil => rfl
    | cons t ts ih =>
      have hl : ¬ e.expires_at < t := hlive t (List.mem_cons_self _ _)
      rw [previewRun, handle_preview_live s t tok fsOk e bytes hent hl hcons hdisk]
      simp [ih (fun u hu => hlive u (List.mem_cons_of_mem _ hu))]
  · intro s2 now2 tok2 fsOk2 h
    rw [handle_preview, FileRegistry.get_absent s2 now2 tok2 fsOk2 h]
  · intro s2 now2 tok2 fsOk2 e2 h hc hx
    rw [handle_preview, FileRegistry.get_live s2 now2 tok2 fsOk2 e2 h hx]
    simp [hc]

/-- Witness for C3: three previews of the sample entry all return its bytes
and leave the state untouched. -/
theorem preview_never_consumes_witness :
    previewRun "t" (fun _ => true) sampleState [10, 20, 30] =
      ([PreviewRes.ok [1, 2, 3], PreviewRes.ok [1, 2, 3], PreviewRes.ok [1, 2, 3]],
        sampleState) := by
  have h := preview_never_consumes sampleState "t" (fun _ => true) sampleEntry [1, 2, 3]
    [10, 20, 30] (by decide) (by decide) (by decide) (by decide) (by decide)
  simpa using h.1

/-! ## C1: one-time download streams fully, then consumes -/

theorem handle_file_download_live (s : RegState) (now : Nat) (tok : String)
    (fsOk : String → Bool) (e : FileEntry) (bytes : Bytes)
    (hent : lookupTok s.entries tok = some e) (hexp : ¬ e.expires_at < now)
    (hcons : e.consumed = false) (hdisk : s.disk e.file_path = some bytes) :
    handle_file_download s now tok fsOk none =
      (.streamed ⟨e.filename, mimeOf e.content_type, e.file_size⟩ bytes true,
        (FileRegistry.consume s tok fsOk).1, (FileRegistry.consume s tok fsOk).2) := by
  rw [handle_file_download, FileRegistry.get_live s now tok fsOk e hent hexp]
  simp [hcons, hdisk]

/-- C1: a GET /files request for a live unconsumed entry with an existing
backing file streams the full file with the stored filename, the MIME type
derived from the stored content type, and Content-Length equal to the
stored fileSize; the resulting registry state is exactly the one produced
by `consume(token)` (invoked only after the complete stream); an
immediately subsequent GET /files returns 410, and a GET /download after
that also returns 410. -/
theorem files_download_success_then_gone (s : RegState) (now now2 now3 : Nat)
    (tok : String) (fsOk : String → Bool) (e : FileEntry) (bytes : Bytes)
    (hent : lookupTok s.entries tok = some e)
    (hexp : ¬ e.expires_at < now) (hcons : e.consumed = false)
    (hdisk : s.disk e.file_path = some bytes)
    (hexp2 : ¬ e.expires_at < now2) (hexp3 : ¬ e.expires_at < now3) :
    (handle_file_download s now tok fsOk none).1 =
      .streamed ⟨e.filename, mimeOf e.content_type, e.file_size⟩ bytes true ∧
    (handle_file_download s now tok fsOk none).2.1 = (FileRegistry.consume s tok fsOk).1 ∧
    (handle_file_download
        (handle_file_download s now tok fsOk none).2.1 now2 tok fsOk none).1 =
      .consumed410 ∧
    (handle_download_page
        (handle_file_download s now tok fsOk none).2.1 now3 tok fsOk).1 =
      .consumed410 := by
  have hdl := handle_file_download_live s now tok fsOk e bytes hent hexp hcons hdisk
  have hlook := FileRegistry.lookupTok_after_consume s tok fsOk e hent hcons
  refine ⟨by rw [hdl], by rw [hdl], ?_, ?_⟩
  · rw [hdl]
    rw [handle_file_download,
      FileRegistry.get_live _ now2 tok fsOk { e with consumed := true } hlook hexp2]
    simp
  · rw [hdl]
    rw [handle_download_page,
      FileRegistry.get_live _ now3 tok fsOk { e with consumed := true } hlook hexp3]
    simp

/-- Witness for C1 on the sample state. -/
theorem files_download_success_then_gone_witness :
    (handle_file_download sampleState 10 "t" (fun _ => true) none).1 =
      .streamed ⟨"a.mp4", "video/mp4", 3⟩ [1, 2, 3] true ∧
    (handle_file_download sampleState 10 "t" (fun _ => true) none).2.1 =
      (FileRegistry.consume sampleState "t" (fun _ => true)).1 ∧
    (handle_file_download
        (handle_file_download sampleState 10 "t" (fun _ => true) none).2.1
        20 "t" (fun _ => true) none).1 = .consumed410 ∧
    (handle_download_page
        (handle_file_download sampleState 10 "t" (fun _ => true) none).2.1
        30 "t" (fun _ => true)).1 = .consumed410 := by
  have h := files_download_success_then_gone sampleState 10 20 30 "t" (fun _ => true)
    sampleEntry [1, 2, 3] (by decide) (by decide) (by decide) (by decide)
    (by decide) (by decide)
  simpa using h

/-! ## C2: an interrupted stream does not consume -/

/-- C2: if the GET /files byte stream is interrupted after any number of
bytes, the handler returns with the registry state exactly as before (no
consume call, no deletion attempt: the consumed flag stays false and the
backing file stays on disk), and a retried request before expiry streams
the complete file. -/
theorem files_download_interrupt_retry (s : RegState) (now now2 : Nat)
    (tok : String) (fsOk : String → Bool) (e : FileEntry) (bytes : Bytes) (n : Nat)
    (hent : lookupTok s.entries tok = some e)
    (hexp : ¬ e.expires_at < now) (hcons : e.consumed = false)
    (hdisk : s.disk e.file_path = some bytes)
    (hexp2 : ¬ e.expires_at < now2) :
    (handle_file_download s now tok fsOk (some n)).1 =
      .streamed ⟨e.filename, mimeOf e.content_type, e.file_size⟩ (bytes.take n) false ∧
    (handle_file_download s now tok fsOk (some n)).2.1 = s ∧
    (handle_file_download s now tok fsOk (some n)).2.2 = [] ∧
    (handle_file_download s now2 tok fsOk none).1 =
      .streamed ⟨e.filename, mimeOf e.content_type, e.file_size⟩ bytes true := by
  have hi : handle_file_download s now tok fsOk (some n) =
      (.streamed ⟨e.filename, mimeOf e.content_type, e.file_size⟩ (bytes.take n) false,
        s, []) := by
    rw [handle_file_download, FileRegistry.get_live s now tok fsOk e hent hexp]
    simp [hcons, hdisk]
  have hdl := handle_file_download_live s now2 tok fsOk e bytes hent hexp2 hcons hdisk
  exact ⟨by rw [hi], by rw [hi], by rw [hi], by rw [hdl]⟩

/-- Witness for C2: a stream interrupted after one byte leaves the sample
state unchanged and a retry delivers all three bytes. -/
theorem files_download_interrupt_retry_witness :
    (handle_file_download sampleState 10 "t" (fun _ => true) (some 1)).1 =
      .streamed ⟨"a.mp4", "video/mp4", 3⟩ [1] false ∧
    (handle_file_download sampleState 10 "t" (fun _ => true) (some 1)).2.1 = sampleState ∧
    (handle_file_download sampleState 10 "t" (fun _ => true) (some 1)).2.2 = [] ∧
    (handle_file_download sampleState 20 "t" (fun _ => true) none).1 =
      .streamed ⟨"a.mp4", "video/mp4", 3⟩ [1, 2, 3] true := by
  have h := files_download_interrupt_retry sampleState 10 20 "t" (fun _ => true)
    sampleEntry [1, 2, 3] 1 (by decide) (by decide) (by decide) (by decide) (by decide)
  simpa using h

/-! ## C9: landing page and the audio sibling button -/

/-- A concrete audio sibling entry, expired at time 5, file at path `q`. -/
def audioEntryExpired : FileEntry := ⟨"a", "q", "a.mp3", 2, "audio", 0, 5, none, false⟩

/-- A concrete live video entry pointing at the audio sibling token. -/
def videoEntryWithAudio : FileEntry := ⟨"v", "p", "a.mp4", 3, "video", 0, 100, some "a", false⟩

/-- A registry state holding the live video and its expired audio sibling. -/
def sampleStateAV : RegState :=
  ⟨[("v", videoEntryWithAudio), ("a", audioEntryExpired)],
    fun q => if q = "p" then some [1, 2, 3] else if q = "q" then some [7, 7] else none⟩

/-- C9 counterexample: serving the landing page of a live unconsumed video
entry whose audio sibling has expired does mutate registry state — the
expired sibling is lazily removed from the map and its file deleted — so
"rendering ... never mutates registry state" fails as stated (the button
itself is correctly absent). -/
theorem download_page_mutates_on_expired_sibling :
    (handle_download_page sampleStateAV 10 "v" (fun _ => true)).1 =
      PageRes.ok ⟨true, "a.mp4", "v", "v", none⟩ ∧
    lookupTok sampleStateAV.entries "a" ≠ none ∧
    lookupTok (handle_download_page sampleStateAV 10 "v" (fun _ => true)).2.1.entries "a" =
      none ∧
    (handle_download_page sampleStateAV 10 "v" (fun _ => true)).2.1.disk "q" = none := by
  refine ⟨by decide, by decide, by decide, by decide⟩

theorem handle_download_page_live_noaudio (s : RegState) (now : Nat) (tok : String)
    (fsOk : String → Bool) (e : FileEntry)
    (hent : lookupTok s.entries tok = some e)
    (hexp : ¬ e.expires_at < now) (hcons : e.consumed = false)
    (hat : e.audio_token = none) :
    handle_download_page s now tok fsOk = (.ok (render_page e tok none), s, []) := by
  rw [handle_download_page, FileRegistry.get_live s now tok fsOk e hent hexp]
  simp [hcons, hat]

theorem handle_download_page_live_emptyaudio (s : RegState) (now : Nat) (tok : String)
    (fsOk : String → Bool) (e : FileEntry)
    (hent : lookupTok s.entries tok = some e)
    (hexp : ¬ e.expires_at < now) (hcons : e.consumed = false)
    (hat : e.audio_token = some "") :
    handle_download_page s now tok fsOk = (.ok (render_page e tok none), s, []) := by
  rw [handle_download_page, FileRegistry.get_live s now tok fsOk e hent hexp]
  simp [hcons, hat]

theorem handle_download_page_live_audio (s : RegState) (now : Nat) (tok : String)
    (fsOk : String → Bool) (e : FileEntry) (atk : String)
    (hent : lookupTok s.entries tok = some e)
    (hexp : ¬ e.expires_at < now) (hcons : e.consumed = false)
    (hat : e.audio_token = some atk) (hempty : atk ≠ "") :
    handle_download_page s now tok fsOk =
      (.ok (render_page e tok (FileRegistry.get s now atk fsOk).1),
        (FileRegistry.get s now atk fsOk).2.1,
        (FileRegistry.get s now atk fsOk).2.2) := by
  rw [handle_download_page, FileRegistry.get_live s now tok fsOk e hent hexp]
  simp [hcons, hat, hempty]

/-- C9 amended: for a live unconsumed entry, the landing page succeeds and
carries the audio download button iff the entry is a video whose (nonempty)
audioToken resolves to an entry that is still present, unexpired and
unconsumed; the handler leaves the registry state unchanged, except that
when the audio sibling is present but expired, resolving it performs the
lazy expiry removal of `get` (deleting the sibling's entry and file) —
rendering itself never mutates state. -/
theorem download_page_audio_button (s : RegState) (now : Nat) (tok : String)
    (fsOk : String → Bool) (e : FileEntry)
    (hent : lookupTok s.entries tok = some e)
    (hexp : ¬ e.expires_at < now) (hcons : e.consumed = false) :
    (∀ pg, (handle_download_page s now tok fsOk).1 = PageRes.ok pg →
      (pg.audio_btn.isSome ↔ (e.content_type = "video" ∧
        ∃ atk a, e.audio_token = some atk ∧ atk ≠ "" ∧
          lookupTok s.entries atk = some a ∧ ¬ a.expires_at < now ∧
          a.consumed = false))) ∧
    (∃ pg, (handle_download_page s now tok fsOk).1 = PageRes.ok pg) ∧
    ((handle_download_page s now tok fsOk).2.1 = s ∨
      ∃ atk a, e.audio_token = some atk ∧ lookupTok s.entries atk = some a ∧
        a.expires_at < now ∧
        (handle_download_page s now tok fsOk).2.1 = (FileRegistry.remove s atk a fsOk).1) := by
  cases hat : e.audio_token with
  | none =>
    have hdl := handle_download_page_live_noaudio s now tok fsOk e hent hexp hcons hat
    refine ⟨?_, ⟨_, by rw [hdl]⟩, Or.inl (by rw [hdl])⟩
    intro pg hpg
    rw [hdl] at hpg
    injection hpg with hpg
    subst hpg
    simp [render_page, hat]
  | some atk =>
    by_cases hempty : atk = ""
    · subst hempty
      have hdl := handle_download_page_live_emptyaudio s now tok fsOk e hent hexp hcons hat
      refine ⟨?_, ⟨_, by rw [hdl]⟩, Or.inl (by rw [hdl])⟩
      intro pg hpg
      rw [hdl] at hpg
      injection hpg with hpg
      subst hpg
      simp [render_page, hat]
    · have hdl := handle_download_page_live_audio s now tok fsOk e atk hent hexp hcons hat hempty
      cases hla : lookupTok s.entries atk with
      | none =>
        rw [FileRegistry.get_absent s now atk fsOk hla] at hdl
        refine ⟨?_, ⟨_, by rw [hdl]⟩, Or.inl (by rw [hdl])⟩
        intro pg hpg
        rw [hdl] at hpg
        injection hpg with hpg
        subst hpg
        simp [render_page, hat, hla]
      | some a =>
        by_cases haexp : a.expires_at < now
        · have hga : FileRegistry.get s now atk fsOk =
              (none, (FileRegistry.remove s atk a fsOk).1,
                (FileRegistry.remove s atk a fsOk).2) := by
            simp [FileRegistry.get, hla, haexp]
          rw [hga] at hdl
          refine ⟨?_, ⟨_, by rw [hdl]⟩,
            Or.inr ⟨atk, a, rfl, hla, haexp, by rw [hdl]⟩⟩
          intro pg hpg
          rw [hdl] at hpg
          injection hpg with hpg
          subst hpg
          simp only [render_page, Option.isSome_none, Bool.false_eq_true, false_iff]
          rintro ⟨-, atk2, a2, hatk2, -, hla2, hexp2, -⟩
          injection hatk2 with hatk2
          subst hatk2
          rw [hla] at hla2
          injection hla2 with hla2
          subst hla2
          exact hexp2 haexp
        · rw [FileRegistry.get_live s now atk fsOk a hla haexp] at hdl
          refine ⟨?_, ⟨_, by rw [hdl]⟩, Or.inl (by rw [hdl])⟩
          intro pg hpg
          rw [hdl] at hpg
          injection hpg with hpg
          subst hpg
          constructor
          · intro hsome
            simp only [render_page] at hsome
            by_cases hcond : e.content_type = "video" ∧ a.consumed = false
            · exact ⟨hcond.1, atk, a, rfl, hempty, hla, haexp, hcond.2⟩
            · rw [if_neg hcond] at hsome
              simp at hsome
          · rintro ⟨hvid, atk2, a2, hatk2, -, hla2, -, hac2⟩
            injection hatk2 with hatk2
            subst hatk2
            rw [hla] at hla2
            injection hla2 with hla2
            subst hla2
            simp [render_page, hvid, hac2]

/-- A concrete live audio sibling entry. -/
def audioEntryLive : FileEntry := ⟨"a2", "q2", "b.mp3", 2, "audio", 0, 100, none, false⟩

/-- A concrete live video entry whose audioToken names the live sibling. -/
def videoEntryLiveAudio : FileEntry := ⟨"v2", "p2", "b.mp4", 3, "video", 0, 100, some "a2", false⟩

/-- A registry state holding the live video and its live audio sibling. -/
def sampleStateAV2 : RegState :=
  ⟨[("v2", videoEntryLiveAudio), ("a2", audioEntryLive)],
    fun q => if q = "p2" then some [1] else if q = "q2" then some [2] else none⟩

/-- Witness for the amended C9 at a live video entry with a live sibling. -/
theorem download_page_audio_button_witness :
    (∀ pg, (handle_download_page sampleStateAV2 10 "v2" (fun _ => true)).1 = PageRes.ok pg →
      (pg.audio_btn.isSome ↔ (videoEntryLiveAudio.content_type = "video" ∧
        ∃ atk a, videoEntryLiveAudio.audio_token = some atk ∧ atk ≠ "" ∧
          lookupTok sampleStateAV2.entries atk = some a ∧ ¬ a.expires_at < 10 ∧
          a.consumed = false))) ∧
    (∃ pg, (handle_download_page sampleStateAV2 10 "v2" (fun _ => true)).1 = PageRes.ok pg) ∧
    ((handle_download_page sampleStateAV2 10 "v2" (fun _ => true)).2.1 = sampleStateAV2 ∨
      ∃ atk a, videoEntryLiveAudio.audio_token = some atk ∧
        lookupTok sampleStateAV2.entries atk = some a ∧ a.expires_at < 10 ∧
        (handle_download_page sampleStateAV2 10 "v2" (fun _ => true)).2.1 =
          (FileRegistry.remove sampleStateAV2 atk a (fun _ => true)).1) :=
  download_page_audio_button sampleStateAV2 10 "v2" (fun _ => true) videoEntryLiveAudio
    (by decide) (by decide) (by decide)

/-! ## C5: consume idempotence and at-most-one deletion per entry -/

/-- "The entry of this token can no longer trigger a deletion": either the
token is absent from the map or its entry is marked consumed. -/
def consumedOrGone (m : EntryMap) (tok : String) : Prop :=
  ∀ e, lookupTok m tok = some e → e.consumed = true

theorem lookupTok_popTok_none (m : EntryMap) (t q : String)
    (h : lookupTok m q = none) : lookupTok (popTok m t) q = none := by
  induction m with
  | nil => simpa [popTok] using h
  | cons kv rest ih =>
    obtain ⟨k, v⟩ := kv
    by_cases hkq : k = q
    · subst hkq
      simp [lookupTok] at h
    · simp only [lookupTok, if_neg hkq] at h
      by_cases hkt : k = t
      · subst hkt
        simpa [popTok] using h
      · simp only [popTok, if_neg hkt, lookupTok, if_neg hkq]
        exact ih h

theorem consumedOrGone_popTok (m : EntryMap) (t tok : String)
    (hnodup : keysNodup m) (h : consumedOrGone m tok) :
    consumedOrGone (popTok m t) tok := by
  intro e he
  by_cases htt : t = tok
  · subst htt
    rw [lookupTok_popTok_self m t hnodup] at he
    cases he
  · rw [lookupTok_popTok_ne m t tok htt] at he
    exact h e he

theorem remove_entries_eq (s : RegState) (t : String) (e : FileEntry)
    (fsOk : String → Bool) :
    (FileRegistry.remove s t e fsOk).1.entries = popTok s.entries t := by
  rw [FileRegistry.remove]
  cases e.consumed <;> simp

theorem remove_log_sub (s : RegState) (t : String) (e : FileEntry)
    (fsOk : String → Bool) :
    (FileRegistry.remove s t e fsOk).2 = [] ∨ (FileRegistry.remove s t e fsOk).2 = [t] := by
  rw [FileRegistry.remove]
  cases e.consumed
  · cases hd : (deleteIfExists fsOk s.disk e.file_path).2 <;> simp [hd]
  · simp

theorem remove_log_consumed (s : RegState) (t : String) (e : FileEntry)
    (fsOk : String → Bool) (h : e.consumed = true) :
    (FileRegistry.remove s t e fsOk).2 = [] := by
  rw [FileRegistry.remove, h]
  simp

/-- Facts about one `cleanup_expired` iteration (`removeAll`) needed for the
at-most-one-deletion argument. -/
theorem removeAll_facts (tok : String) (fsOk : String → Bool) (L : EntryMap) :
    ∀ s : RegState, keysNodup s.entries → keysNodup L →
    (∀ p ∈ L, lookupTok s.entries p.1 = some p.2) →
    keysNodup (FileRegistry.removeAll fsOk s L).1.entries ∧
    ((FileRegistry.removeAll fsOk s L).2.2.count tok ≤ 1) ∧
    ((FileRegistry.removeAll fsOk s L).2.2.count tok = 1 →
      consumedOrGone (FileRegistry.removeAll fsOk s L).1.entries tok) ∧
    (consumedOrGone s.entries tok →
      (FileRegistry.removeAll fsOk s L).2.2.count tok = 0 ∧
      consumedOrGone (FileRegistry.removeAll fsOk s L).1.entries tok) := by
  induction L with
  | nil =>
    intro s hs _ _
    refine ⟨hs, by simp [FileRegistry.removeAll], ?_, ?_⟩
    · intro h
      simp [FileRegistry.removeAll, List.count_nil] at h
    · intro h
      exact ⟨by simp [FileRegistry.removeAll], h⟩
  | cons p rest ih =>
    intro s hs hL hlook
    obtain ⟨t, e⟩ := p
    have hLrest : keysNodup rest := by
      simpa [keysNodup] using (List.nodup_cons.mp (by simpa [keysNodup] using hL)).2
    have htnotin : t ∉ rest.map Prod.fst :=
      (List.nodup_cons.mp (by simpa [keysNodup] using hL)).1
    -- the state after removing (t, e)
    set s1 := (FileRegistry.remove s t e fsOk).1 with hs1
    have hs1entries : s1.entries = popTok s.entries t := remove_entries_eq s t e fsOk
    have hs1nodup : keysNodup s1.entries := by
      rw [hs1entries]
      exact keysNodup_popTok s.entries t hs
    have hs1look : ∀ p ∈ rest, lookupTok s1.entries p.1 = some p.2 := by
      intro p hp
      have hne : t ≠ p.1 := by
        intro hh
        exact htnotin (hh ▸ List.mem_map.mpr ⟨p, hp, rfl⟩)
      rw [hs1entries, lookupTok_popTok_ne s.entries t p.1 hne]
      exact hlook p (List.mem_cons_of_mem _ hp)
    have ihr := ih s1 hs1nodup hLrest hs1look
    have hunfold : FileRegistry.removeAll fsOk s ((t, e) :: rest) =
        ((FileRegistry.removeAll fsOk s1 rest).1,
          (FileRegistry.removeAll fsOk s1 rest).2.1 + 1,
          (FileRegistry.remove s t e fsOk).2 ++ (FileRegistry.removeAll fsOk s1 rest).2.2) := by
      rw [FileRegistry.removeAll]
    rw [hunfold]
    simp only [List.count_append]
    rcases remove_log_sub s t e fsOk with hlog | hlog
    · -- this step deleted nothing
      rw [hlog]
      simp only [List.count_nil, Nat.zero_add]
      refine ⟨ihr.1, ihr.2.1, ihr.2.2.1, ?_⟩
      intro hcg
      exact ihr.2.2.2 (by
        rw [hs1entries]
        exact consumedOrGone_popTok s.entries t tok hs hcg)
    · -- this step deleted entry (t, e)'s file
      rw [hlog]
      by_cases htt : t = tok
      · subst htt
        -- the token was just removed from the map: the tail cannot see it
        have hgone : consumedOrGone s1.entries t := by
          intro e2 he2
          rw [hs1entries, lookupTok_popTok_self s.entries t hs] at he2
          cases he2
        have hrest0 := (ihr.2.2.2 hgone).1
        have hrestcg := (ihr.2.2.2 hgone).2
        simp only [List.count_cons_self, List.count_nil, hrest0]
        refine ⟨ihr.1, by omega, fun _ => hrestcg, ?_⟩
        intro hcg
        -- contradiction: the head pair was live and unconsumed, yet consumedOrGone held
        have he := hlook (t, e) (List.mem_cons_self _ _)
        have : e.consumed = true := hcg e he
        have : (FileRegistry.remove s t e fsOk).2 = [] :=
          remove_log_consumed s t e fsOk this
        rw [this] at hlog
        cases hlog
      · have hcount : List.count tok [t] = 0 := by
          rw [List.count_eq_zero]
          intro hmem
          rw [List.mem_singleton] at hmem
          exact htt hmem.symm
        rw [hcount]
        simp only [Nat.zero_add]
        refine ⟨ihr.1, ihr.2.1, ihr.2.2.1, ?_⟩
        intro hcg
        exact ihr.2.2.2 (by
          rw [hs1entries]
          exact consumedOrGone_popTok s.entries t tok hs hcg)

theorem count_singleton_ne (b a : String) (h : ¬ b = a) : List.count a [b] = 0 := by
  rw [List.count_eq_zero]
  intro hmem
  rw [List.mem_singleton] at hmem
  exact h hmem.symm

theorem count_singleton_le_one (a b : String) : List.count a [b] ≤ 1 := by
  by_cases h : b = a
  · subst h
    simp
  · rw [count_singleton_ne b a h]
    omega

theorem runOp_facts (tok : String) (s : RegState) (op : Op)
    (hnr : op.isRegister = false) (hnodup : keysNodup s.entries) :
    keysNodup (runOp s op).1.entries ∧
    (runOp s op).2.count tok ≤ 1 ∧
    ((runOp s op).2.count tok = 1 → consumedOrGone (runOp s op).1.entries tok) ∧
    (consumedOrGone s.entries tok →
      (runOp s op).2.count tok = 0 ∧ consumedOrGone (runOp s op).1.entries tok) := by
  cases op with
  | register now2 tok2 fp fn sz ct ttl atk => simp [Op.isRegister] at hnr
  | get now2 tok2 fsOk =>
    cases hla : lookupTok s.entries tok2 with
    | none =>
      have hg := FileRegistry.get_absent s now2 tok2 fsOk hla
      simp only [runOp, hg]
      exact ⟨hnodup, by simp, by simp, fun hcg => ⟨by simp, hcg⟩⟩
    | some e2 =>
      by_cases hx : e2.expires_at < now2
      · have hg : FileRegistry.get s now2 tok2 fsOk =
            (none, (FileRegistry.remove s tok2 e2 fsOk).1,
              (FileRegistry.remove s tok2 e2 fsOk).2) := by
          simp [FileRegistry.get, hla, hx]
        simp only [runOp, hg]
        have hent' : (FileRegistry.remove s tok2 e2 fsOk).1.entries = popTok s.entries tok2 :=
          remove_entries_eq s tok2 e2 fsOk
        refine ⟨by rw [hent']; exact keysNodup_popTok s.entries tok2 hnodup, ?_, ?_, ?_⟩
        · rcases remove_log_sub s tok2 e2 fsOk with hlog | hlog <;> rw [hlog]
          · simp
          · exact count_singleton_le_one tok tok2
        · intro h1 e3 he3
          rw [hent'] at he3
          by_cases htt : tok2 = tok
          · subst htt
            rw [lookupTok_popTok_self s.entries tok2 hnodup] at he3
            cases he3
          · exfalso
            rcases remove_log_sub s tok2 e2 fsOk with hlog | hlog <;> rw [hlog] at h1
            · simp at h1
            · rw [count_singleton_ne tok2 tok htt] at h1
              simp at h1
        · intro hcg
          constructor
          · by_cases htt : tok2 = tok
            · subst htt
              have hec : e2.consumed = true := hcg e2 hla
              rw [remove_log_consumed s tok2 e2 fsOk hec]
              simp
            · rcases remove_log_sub s tok2 e2 fsOk with hlog | hlog <;> rw [hlog]
              · simp
              · exact count_singleton_ne tok2 tok htt
          · rw [hent']
            exact consumedOrGone_popTok s.entries tok2 tok hnodup hcg
      · have hg := FileRegistry.get_live s now2 tok2 fsOk e2 hla hx
        simp only [runOp, hg]
        exact ⟨hnodup, by simp, by simp, fun hcg => ⟨by simp, hcg⟩⟩
  | consume tok2 fsOk =>
    cases hla : lookupTok s.entries tok2 with
    | none =>
      have hc := FileRegistry.consume_noop_absent s tok2 fsOk hla
      simp only [runOp, hc]
      exact ⟨hnodup, by simp, by simp, fun hcg => ⟨by simp, hcg⟩⟩
    | some e2 =>
      cases hc2 : e2.consumed with
      | true =>
        have hc := FileRegistry.consume_noop_consumed s tok2 fsOk e2 hla hc2
        simp only [runOp, hc]
        exact ⟨hnodup, by simp, by simp, fun hcg => ⟨by simp, hcg⟩⟩
      | false =>
        have hc := FileRegistry.consume_live s tok2 fsOk e2 hla hc2
        simp only [runOp, hc]
        have hsetl := lookupTok_setTok s.entries tok2 { e2 with consumed := true }
        refine ⟨keysNodup_setTok s.entries tok2 _ hnodup, ?_, ?_, ?_⟩
        · cases hd : (deleteIfExists fsOk s.disk e2.file_path).2
          · simp [hd]
          · simp only [hd, if_true]
            exact count_singleton_le_one tok tok2
        · intro h1 e3 he3
          rw [hsetl tok] at he3
          by_cases htt : tok2 = tok
          · rw [if_pos htt] at he3
            injection he3 with he3
            subst he3
            rfl
          · exfalso
            cases hd : (deleteIfExists fsOk s.disk e2.file_path).2 <;>
              rw [hd] at h1
            · simp at h1
            · simp only [if_true] at h1
              rw [count_singleton_ne tok2 tok htt] at h1
              simp at h1
        · intro hcg
          by_cases htt : tok2 = tok
          · subst htt
            have hec : e2.consumed = true := hcg e2 hla
            rw [hec] at hc2
            cases hc2
          · constructor
            · cases hd : (deleteIfExists fsOk s.disk e2.file_path).2
              · simp [hd]
              · simp only [hd, if_true]
                exact count_singleton_ne tok2 tok htt
            · intro e3 he3
              rw [hsetl tok, if_neg htt] at he3
              exact hcg e3 he3
  | cleanup now2 fsOk =>
    have hsnapnd : keysNodup (FileRegistry.expiredSnapshot s.entries now2) := by
      unfold keysNodup FileRegistry.expiredSnapshot
      exact hnodup.sublist ((List.filter_sublist s.entries).map Prod.fst)
    have hsnaplook : ∀ p ∈ FileRegistry.expiredSnapshot s.entries now2,
        lookupTok s.entries p.1 = some p.2 := by
      intro p hp
      have hpm : p ∈ s.entries := List.mem_of_mem_filter hp
      obtain ⟨t, e⟩ := p
      exact lookupTok_of_mem s.entries t e hnodup hpm
    have hra := removeAll_facts tok fsOk (FileRegistry.expiredSnapshot s.entries now2) s
      hnodup hsnapnd hsnaplook
    simpa only [runOp, FileRegistry.cleanup_expired] using hra

theorem runOps_count_aux (tok : String) (ops : List Op) :
    ∀ s : RegState, keysNodup s.entries → (∀ op ∈ ops, op.isRegister = false) →
    ((runOps s ops).2.count tok ≤ 1 ∧
      (consumedOrGone s.entries tok → (runOps s ops).2.count tok = 0)) := by
  induction ops with
  | nil =>
    intro s _ _
    exact ⟨by simp [runOps], fun _ => by simp [runOps]⟩
  | cons op ops ih =>
    intro s hnodup hnr
    have hop := runOp_facts tok s op (hnr op (List.mem_cons_self _ _)) hnodup
    have ihr := ih (runOp s op).1 hop.1 (fun o ho => hnr o (List.mem_cons_of_mem _ ho))
    have hunfold : runOps s (op :: ops) =
        ((runOps (runOp s op).1 ops).1,
          (runOp s op).2 ++ (runOps (runOp s op).1 ops).2) := by
      rw [runOps]
    rw [hunfold]
    simp only [List.count_append]
    constructor
    · rcases Nat.lt_or_ge ((runOp s op).2.count tok) 1 with h1 | h1
      · have h0 : (runOp s op).2.count tok = 0 := by omega
        rw [h0]
        have := ihr.1
        omega
      · have h1' : (runOp s op).2.count tok = 1 := le_antisymm hop.2.1 h1
        have hcg := hop.2.2.1 h1'
        have := ihr.2 hcg
        omega
    · intro hcg
      have h0 := hop.2.2.2 hcg
      rw [h0.1]
      have := ihr.2 h0.2
      omega

/-- C5: `consume` is idempotent — the first call on a live token marks the
entry consumed (leaving it in the map) and deletes its backing file (shown
for a deletion the filesystem accepts), every subsequent consume of that
token and any consume of a nonexistent token is a successful no-op — and
across every sequence of consume, lazy-expiry get and cleanupExpired
operations, at most one deletion of a given entry's file ever occurs
(indeed at most one deletion is even attempted). -/
theorem consume_idempotent_single_deletion (s : RegState) (tok : String)
    (fsOk fsOk2 : String → Bool) (e : FileEntry)
    (hnodup : keysNodup s.entries)
    (hent : lookupTok s.entries tok = some e)
    (hcons : e.consumed = false) :
    lookupTok (FileRegistry.consume s tok fsOk).1.entries tok =
      some { e with consumed := true } ∧
    (fsOk e.file_path = true →
      (FileRegistry.consume s tok fsOk).1.disk e.file_path = none) ∧
    FileRegistry.consume (FileRegistry.consume s tok fsOk).1 tok fsOk2 =
      ((FileRegistry.consume s tok fsOk).1, []) ∧
    (∀ (s2 : RegState) (tok2 : String) (fsOk3 : String → Bool),
      lookupTok s2.entries tok2 = none →
      FileRegistry.consume s2 tok2 fsOk3 = (s2, [])) ∧
    (∀ ops : List Op, (∀ op ∈ ops, op.isRegister = false) →
      (runOps s ops).2.count tok ≤ 1) := by
  have hlook := FileRegistry.lookupTok_after_consume s tok fsOk e hent hcons
  refine ⟨hlook, ?_, ?_, ?_, ?_⟩
  · intro hfs
    rw [FileRegistry.consume_live s tok fsOk e hent hcons]
    exact deleteIfExists_self fsOk s.disk e.file_path hfs
  · exact FileRegistry.consume_noop_consumed _ tok fsOk2 _ hlook rfl
  · intro s2 tok2 fsOk3 h
    exact FileRegistry.consume_noop_absent s2 tok2 fsOk3 h
  · intro ops hnr
    exact (runOps_count_aux tok ops s hnodup hnr).1

/-- Witness for C5 on the sample state, including a concrete
consume-then-expire-then-cleanup trace whose deletion log mentions the
token at most once. -/
theorem consume_idempotent_single_deletion_witness :
    lookupTok (FileRegistry.consume sampleState "t" (fun _ => true)).1.entries "t" =
      some ⟨"t", "p", "a.mp4", 3, "video", 0, 100, none, true⟩ ∧
    (FileRegistry.consume sampleState "t" (fun _ => true)).1.disk "p" = none ∧
    FileRegistry.consume (FileRegistry.consume sampleState "t" (fun _ => true)).1 "t"
      (fun _ => true) = ((FileRegistry.consume sampleState "t" (fun _ => true)).1, []) ∧
    FileRegistry.consume sampleState "zz" (fun _ => true) = (sampleState, []) ∧
    (runOps sampleState
      [Op.consume "t" (fun _ => true), Op.get 200 "t" (fun _ => true),
        Op.cleanup 300 (fun _ => true)]).2.count "t" ≤ 1 := by
  have h := consume_idempotent_single_deletion sampleState "t" (fun _ => true)
    (fun _ => true) sampleEntry (by unfold keysNodup; decide) (by decide) (by decide)
  refine ⟨h.1, h.2.1 rfl, h.2.2.1, h.2.2.2.1 sampleState "zz" (fun _ => true) (by decide), ?_⟩
  refine h.2.2.2.2 _ ?_
  intro op hop
  simp only [List.mem_cons, List.not_mem_nil, or_false] at hop
  rcases hop with rfl | rfl | rfl <;> rfl

/-! ## C6: consumed entries have no backing file -/

/-- The claimed invariant: every consumed entry's backing file is gone. -/
def consumedImpliesGone (s : RegState) : Prop :=
  ∀ p ∈ s.entries, p.2.consumed = true → s.disk p.2.file_path = none

/-- C6 counterexample: when the deletion attempt raises `OSError` (which
`consume` catches and logs without rolling back the flag), the entry ends
consumed while its backing file still exists, violating the invariant as
stated. -/
theorem consumed_file_persists_on_failed_delete :
    ¬ consumedImpliesGone
      (runOps ⟨[], fun q => if q = "p" then some [1] else none⟩
        [Op.register 0 "t" "p" "a.mp4" 1 "video" 100 none,
          Op.consume "t" (fun _ => false)]).1 := by
  unfold consumedImpliesGone
  decide

theorem disk_after_remove_none (s : RegState) (t : String) (e : FileEntry)
    (fsOk : String → Bool) (q : String) (h : s.disk q = none) :
    (FileRegistry.remove s t e fsOk).1.disk q = none := by
  rw [FileRegistry.remove]
  cases e.consumed
  · simp only [Bool.false_eq_true, if_false]
    exact deleteIfExists_shrink fsOk s.disk e.file_path q h
  · simpa using h

theorem remove_preserves_cig (s : RegState) (t : String) (e : FileEntry)
    (fsOk : String → Bool) (h : consumedImpliesGone s) :
    consumedImpliesGone (FileRegistry.remove s t e fsOk).1 := by
  intro p hp hc
  rw [remove_entries_eq s t e fsOk] at hp
  exact disk_after_remove_none s t e fsOk _ (h p (mem_popTok s.entries t p hp) hc)

theorem removeAll_preserves_cig (fsOk : String → Bool) (L : EntryMap) :
    ∀ s : RegState, consumedImpliesGone s →
    consumedImpliesGone (FileRegistry.removeAll fsOk s L).1 := by
  induction L with
  | nil => intro s h; exact h
  | cons p rest ih =>
    intro s h
    obtain ⟨t, e⟩ := p
    have hstep := remove_preserves_cig s t e fsOk h
    have hunfold : (FileRegistry.removeAll fsOk s ((t, e) :: rest)).1 =
        (FileRegistry.removeAll fsOk (FileRegistry.remove s t e fsOk).1 rest).1 := by
      rw [FileRegistry.removeAll]
    rw [hunfold]
    exact ih (FileRegistry.remove s t e fsOk).1 hstep

theorem runOp_preserves_cig (s : RegState) (op : Op) (hfs : op.fsTotal)
    (h : consumedImpliesGone s) : consumedImpliesGone (runOp s op).1 := by
  cases op with
  | register now2 tok2 fp fn sz ct ttl atk =>
    intro p hp hc
    simp only [runOp, FileRegistry.register] at hp ⊢
    rcases mem_setTok s.entries tok2 _ p hp with rfl | hpm
    · simp at hc
    · exact h p hpm hc
  | get now2 tok2 fsOk =>
    cases hla : lookupTok s.entries tok2 with
    | none =>
      rw [runOp, FileRegistry.get_absent s now2 tok2 fsOk hla]
      exact h
    | some e2 =>
      by_cases hx : e2.expires_at < now2
      · have hg : FileRegistry.get s now2 tok2 fsOk =
            (none, (FileRegistry.remove s tok2 e2 fsOk).1,
              (FileRegistry.remove s tok2 e2 fsOk).2) := by
          simp [FileRegistry.get, hla, hx]
        rw [runOp, hg]
        exact remove_preserves_cig s tok2 e2 fsOk h
      · rw [runOp, FileRegistry.get_live s now2 tok2 fsOk e2 hla hx]
        exact h
  | consume tok2 fsOk =>
    cases hla : lookupTok s.entries tok2 with
    | none =>
      rw [runOp, FileRegistry.consume_noop_absent s tok2 fsOk hla]
      exact h
    | some e2 =>
      cases hc2 : e2.consumed with
      | true =>
        rw [runOp, FileRegistry.consume_noop_consumed s tok2 fsOk e2 hla hc2]
        exact h
      | false =>
        rw [runOp, FileRegistry.consume_live s tok2 fsOk e2 hla hc2]
        intro p hp hc
        rcases mem_setTok s.entries tok2 _ p hp with rfl | hpm
        · exact deleteIfExists_self fsOk s.disk e2.file_path (hfs e2.file_path)
        · exact deleteIfExists_shrink fsOk s.disk e2.file_path _ (h p hpm hc)
  | cleanup now2 fsOk =>
    have : (runOp s (Op.cleanup now2 fsOk)).1 =
        (FileRegistry.removeAll fsOk s (FileRegistry.expiredSnapshot s.entries now2)).1 := by
      rw [runOp, FileRegistry.cleanup_expired]
    rw [this]
    exact removeAll_preserves_cig fsOk _ s h

theorem runOps_preserves_cig (ops : List Op) :
    ∀ s : RegState, (∀ op ∈ ops, op.fsTotal) → consumedImpliesGone s →
    consumedImpliesGone (runOps s ops).1 := by
  induction ops with
  | nil => intro s _ h; exact h
  | cons op ops ih =>
    intro s hfs h
    have hunfold : (runOps s (op :: ops)).1 = (runOps (runOp s op).1 ops).1 := by
      rw [runOps]
    rw [hunfold]
    exact ih (runOp s op).1 (fun o ho => hfs o (List.mem_cons_of_mem _ ho))
      (runOp_preserves_cig s op (hfs op (List.mem_cons_self _ _)) h)

/-- C6 amended: in every registry state reachable from an empty registry
(over an arbitrary initial filesystem) by register/get/consume/cleanup
operations all of whose attempted file deletions succeed, every entry with
consumed = true has no backing file on disk.  (The unamended claim fails
only when a deletion attempt raises `OSError`, which the code logs without
rolling back the consumed flag.) -/
theorem consumed_implies_file_gone (d0 : String → Option Bytes) (ops : List Op)
    (hfs : ∀ op ∈ ops, op.fsTotal) :
    consumedImpliesGone (runOps ⟨[], d0⟩ ops).1 := by
  refine runOps_preserves_cig ops ⟨[], d0⟩ hfs ?_
  intro p hp
  simp at hp

/-- Witness for the amended C6: a register-then-consume trace with a
successful deletion satisfies the invariant. -/
theorem consumed_implies_file_gone_witness :
    consumedImpliesGone
      (runOps ⟨[], fun q => if q = "p" then some [1] else none⟩
        [Op.register 0 "t" "p" "a.mp4" 1 "video" 100 none,
          Op.consume "t" (fun _ => true)]).1 := by
  refine consumed_implies_file_gone _ _ ?_
  intro op hop
  simp only [List.mem_cons, List.not_mem_nil, or_false] at hop
  rcases hop with rfl | rfl
  · exact trivial
  · intro p
    rfl

/-! ## C7: progress report throttling -/

/-- Integer absolute value, mirror of `ratAbs`. -/
def intAbs (x : Int) : Int := if x < 0 then -x else x

/-- Integer mirror of `ProgressTracker.update_loop_go`, used to compute the
loop by kernel reduction (rational arithmetic does not reduce). -/
def update_loop_go_int (threshold : Int) : Int → List Int → List Int
  | _, [] => []
  | last, v :: vs =>
    if threshold ≤ intAbs (v - last) then
      v :: update_loop_go_int threshold v vs
    else
      update_loop_go_int threshold last vs

theorem ratAbs_intCast (x : Int) : ProgressTracker.ratAbs (x : Rat) = (intAbs x : Rat) := by
  unfold ProgressTracker.ratAbs intAbs
  by_cases h : x < 0
  · rw [if_pos h, if_pos (by exact_mod_cast h), Int.cast_neg]
  · rw [if_neg h, if_neg (by exact_mod_cast h)]

theorem update_loop_go_cast (t : Int) (samples : List Int) :
    ∀ last : Int,
      ProgressTracker.update_loop_go (t : Rat) (fun _ => true) (last : Rat)
        (samples.map (fun n : Int => (n : Rat))) =
      (update_loop_go_int t last samples).map (fun n : Int => (n : Rat)) := by
  induction samples with
  | nil => intro last; rfl
  | cons v vs ih =>
    intro last
    rw [List.map_cons, ProgressTracker.update_loop_go, update_loop_go_int]
    have hsub : (v : Rat) - (last : Rat) = ((v - last : Int) : Rat) := by push_cast; ring
    have hcond : ((t : Rat) ≤ ProgressTracker.ratAbs ((v : Rat) - (last : Rat))) ↔
        (t ≤ intAbs (v - last)) := by
      rw [hsub, ratAbs_intCast]
      exact_mod_cast Iff.rfl
    by_cases hq : t ≤ intAbs (v - last)
    · rw [if_pos (hcond.mpr hq), if_pos hq, List.map_cons]
      simp only [if_true]
      rw [ih v]
    · rw [if_neg (fun hh => hq (hcond.mp hh)), if_neg hq]
      exact ih last

theorem update_loop_reports_eq_int :
    ProgressTracker.update_loop_reports 5 (fun _ => true) percents0to100 =
      (update_loop_go_int 5 (-1) percentsInt).map (fun n : Int => (n : Rat)) := by
  rw [ProgressTracker.update_loop_reports, percents0to100]
  have h := update_loop_go_cast 5 percentsInt (-1)
  have h5 : ((5 : Int) : Rat) = (5 : Rat) := by norm_num
  have h1 : ((-1 : Int) : Rat) = (-1 : Rat) := by norm_num
  rw [h5, h1] at h
  exact h

/-- C7 counterexample: the reporting loop has no `or percent >= 100`
special case — on the source 0,1,...,100 with threshold 5 the callback is
never invoked at 100, so the claimed "final mandatory report at 100" does
not happen. -/
theorem no_mandatory_report_at_100 :
    (100 : Rat) ∉ ProgressTracker.update_loop_reports 5 (fun _ => true) percents0to100 := by
  intro hmem
  rw [update_loop_reports_eq_int] at hmem
  rcases List.mem_map.mp hmem with ⟨a, ha, hcast⟩
  have haeq : a = 100 := by exact_mod_cast hcast
  rw [haeq] at ha
  revert ha
  decide

theorem update_loop_go_chain (th : Rat) (samples : List Rat) :
    ∀ last : Rat, List.Chain' (fun a b => th ≤ ProgressTracker.ratAbs (b - a))
      (last :: ProgressTracker.update_loop_go th (fun _ => true) last samples) := by
  induction samples with
  | nil => intro last; simp [ProgressTracker.update_loop_go]
  | cons v vs ih =>
    intro last
    rw [ProgressTracker.update_loop_go]
    by_cases hq : th ≤ ProgressTracker.ratAbs (v - last)
    · rw [if_pos hq]
      simp only [if_true]
      rw [List.chain'_cons]
      exact ⟨hq, ih v⟩
    · rw [if_neg hq]
      exact ih last

/-- C7 amended: the reporting loop invokes the callback exactly when the
polled percent differs from the last reported value (initially -1) by at
least the threshold — there is no `or progress has reached 100` clause in
the loop (that special case lives in the chat-side callback built by
`create_progress_callback`, not here); hence successive reported values
always differ by at least the threshold, and on the source 0,1,...,100 with
threshold 5 the reports are exactly 4, 9, ..., 99 with no final report at
100.  The loop's own configured threshold is the constant 2. -/
theorem progress_reports_spaced_by_threshold :
    (∀ (th : Rat) (samples : List Rat),
      List.Chain' (fun a b => th ≤ ProgressTracker.ratAbs (b - a))
        ((-1) :: ProgressTracker.update_loop_reports th (fun _ => true) samples)) ∧
    ProgressTracker.update_loop_reports 5 (fun _ => true) percents0to100 =
      [4, 9, 14, 19, 24, 29, 34, 39, 44, 49, 54, 59, 64, 69, 74, 79, 84, 89, 94, 99] ∧
    Timeouts.PROGRESS_CHANGE_THRESHOLD = 2 := by
  refine ⟨fun th samples => update_loop_go_chain th samples (-1), ?_, rfl⟩
  rw [update_loop_reports_eq_int]
  have hint : update_loop_go_int 5 (-1) percentsInt =
      [4, 9, 14, 19, 24, 29, 34, 39, 44, 49, 54, 59, 64, 69, 74, 79, 84, 89, 94, 99] := by
    decide
  rw [hint]
  norm_num

/-! ## C10: hook behavior on progress events -/

theorem pyFloat_default_zero :
    pyFloat? (stripPercentChars ((none : Option String).getD "0%")) =
      some ((0 : Nat) : Rat) := rfl

/-- C10 counterexample: a 'downloading' event with the '_percent_str' key
missing resets the stored percent to zero — `d.get('_percent_str', '0%')`
falls back to '0%', which parses as 0.0 — rather than leaving the stored
percent unchanged as claimed. -/
theorem hook_missing_percent_resets_to_zero :
    ProgressTracker.hook ⟨50, true⟩ ⟨.downloading, none⟩ = ⟨0, true⟩ ∧
    ProgressTracker.hook ⟨50, true⟩ ⟨.downloading, none⟩ ≠ ⟨50, true⟩ := by
  have h : ProgressTracker.hook ⟨50, true⟩ ⟨.downloading, none⟩ = ⟨0, true⟩ := by
    simp only [ProgressTracker.hook]
    rw [pyFloat_default_zero]
    norm_num
  refine ⟨h, ?_⟩
  rw [h]
  intro hc
  injection hc with h1 h2
  norm_num at h1

/-- C10 amended: the hook is total (the ValueError of an unparseable
percent string is swallowed) and behaves as follows: on a 'downloading'
event with no '_percent_str' the stored percent is set to 0 (the '0%'
default), with a present but unparseable value the state is unchanged,
with a parseable value the percent is overwritten; on 'finished' only the
downloading flag is cleared; any other status leaves the state unchanged. -/
theorem hook_behavior :
    (∀ st : PTState, ProgressTracker.hook st ⟨.downloading, none⟩ =
      { st with percent := 0 }) ∧
    (∀ (st : PTState) (str : String),
      pyFloat? (stripPercentChars str) = none →
      ProgressTracker.hook st ⟨.downloading, some str⟩ = st) ∧
    (∀ (st : PTState) (str : String) (v : Rat),
      pyFloat? (stripPercentChars str) = some v →
      ProgressTracker.hook st ⟨.downloading, some str⟩ = { st with percent := v }) ∧
    (∀ (st : PTState) (ps : Option String),
      ProgressTracker.hook st ⟨.finished, ps⟩ = { st with downloading := false }) ∧
    (∀ (st : PTState) (ps : Option String),
      ProgressTracker.hook st ⟨.other, ps⟩ = st) := by
  refine ⟨?_, ?_, ?_, fun st ps => rfl, fun st ps => rfl⟩
  · intro st
    simp only [ProgressTracker.hook]
    rw [pyFloat_default_zero]
    norm_num
  · intro st str h
    simp only [ProgressTracker.hook, Option.getD_some]
    rw [h]
  · intro st str v h
    simp only [ProgressTracker.hook, Option.getD_some]
    rw [h]

/-- Witness for the amended C10 at concrete events. -/
theorem hook_behavior_witness :
    ProgressTracker.hook ⟨50, true⟩ ⟨.downloading, some "abc%"⟩ = ⟨50, true⟩ ∧
    ProgressTracker.hook ⟨50, true⟩ ⟨.downloading, some "42%"⟩ = ⟨42, true⟩ ∧
    ProgressTracker.hook ⟨50, true⟩ ⟨.finished, none⟩ = ⟨50, false⟩ ∧
    ProgressTracker.hook ⟨50, true⟩ ⟨.other, none⟩ = ⟨50, true⟩ := by
  have h := hook_behavior
  refine ⟨h.2.1 ⟨50, true⟩ "abc%" ?_, ?_, h.2.2.2.1 ⟨50, true⟩ none, h.2.2.2.2 ⟨50, true⟩ none⟩
  · rfl
  · have h42 : pyFloat? (stripPercentChars "42%") = some ((42 : Nat) : Rat) := rfl
    rw [h.2.2.1 ⟨50, true⟩ "42%" ((42 : Nat) : Rat) h42]
    norm_num
